import Mathlib

/-!
Shallow embedding of the safe-cli rule-matching/aggregation engine:
parsed-command helpers (`safe_cli/core/parser.py`), the danger-level
enumeration and constants (`safe_cli/utils/constants.py`), selected
concrete rules (`safe_cli/rules/filesystem.py`, `docker.py`, `git.py`,
`system.py`), the rule registry (`safe_cli/rules/registry.py`) and the
analyzer (`safe_cli/core/analyzer.py`), together with theorems checking
the specification's claims about them.
-/

/-- `DangerLevel` from `safe_cli/utils/constants.py`. -/
inductive DangerLevel
  | SAFE
  | LOW
  | MEDIUM
  | HIGH
  | CRITICAL
deriving DecidableEq

/-- Position of a level in the `order` list used by `DangerLevel.__lt__`
(`order.index(self)`), so comparisons are rank comparisons. -/
def DangerLevel.rank : DangerLevel → Nat
  | .SAFE => 0
  | .LOW => 1
  | .MEDIUM => 2
  | .HIGH => 3
  | .CRITICAL => 4

/-- Python `s.startswith(pre)` modelled on character lists:
`isPrefixSeq pre s` is true when `pre` is a prefix of `s`. -/
def isPrefixSeq : List Char → List Char → Bool
  | [], _ => true
  | _ :: _, [] => false
  | a :: as, b :: bs => a == b && isPrefixSeq as bs

/-- Python `f.startswith(pre)` on strings. -/
def strStartsWith (s pre : String) : Bool :=
  isPrefixSeq pre.toList s.toList

/-- Python substring test `pat in s` on character lists: true when `pat`
occurs contiguously in the list (the empty pattern occurs everywhere). -/
def containsSeq (pat : List Char) : List Char → Bool
  | [] => pat.isEmpty
  | a :: rest => isPrefixSeq pat (a :: rest) || containsSeq pat rest

/-- Characters after the first `'='`, modelling Python
`f.split("=", 1)[1]` on the paths where an `'='` is present. -/
def afterFirstEqSeq : List Char → List Char
  | [] => []
  | c :: rest => if c == '=' then rest else afterFirstEqSeq rest

/-- String wrapper for `afterFirstEqSeq`. -/
def afterFirstEq (s : String) : String :=
  ⟨afterFirstEqSeq s.toList⟩

/-- Python `s.replace(pat, rep)` (all non-overlapping occurrences,
left to right) on character lists; the uses in the code always pass a
non-empty `pat`, and for an empty `pat` this returns the input. -/
def replaceSeq (pat rep : List Char) : List Char → List Char
  | [] => []
  | a :: rest =>
    if isPrefixSeq pat (a :: rest) && !pat.isEmpty then
      rep ++ replaceSeq pat rep (rest.drop (pat.length - 1))
    else
      a :: replaceSeq pat rep rest
termination_by l => l.length
decreasing_by
  · simp only [List.length_cons]
    have := List.length_drop (pat.length - 1) rest
    omega
  · simp [List.length_cons]

/-- Python `s.replace(pat, rep)` on strings. -/
def strReplace (s pat rep : String) : String :=
  ⟨replaceSeq pat.toList rep.toList s.toList⟩

/-- `ParsedCommand` from `safe_cli/core/parser.py`. -/
structure ParsedCommand where
  raw : String
  tokens : List String
  command : String
  args : List String
  flags : List String

/-- `ParsedCommand.has_flag` from `safe_cli/core/parser.py`: verbatim or
prefix match against the flag tokens, plus combined short-flag clusters
(`-rf` matches `-r` and `-f`) for queries of the shape `-x`. -/
def ParsedCommand.has_flag (c : ParsedCommand) (flag : String) : Bool :=
  if c.flags.contains flag || c.flags.any (fun f => strStartsWith f flag) then
    true
  else
    -- the code guards with flag.startswith("-"), not flag.startswith("--"),
    -- len(flag) == 2; equivalently flag is the two-character list ['-', x]
    -- with x ≠ '-'
    match flag.toList with
    | [d, x] =>
      if d == '-' && x != '-' then
        -- f.startswith("-") and not f.startswith("--") and len(f) > 1
        -- and short in f[1:]
        c.flags.any (fun f =>
          match f.toList with
          | d2 :: y :: rest => d2 == '-' && y != '-' && (y :: rest).contains x
          | _ => false)
      else false
    | _ => false

/-- `ParsedCommand.has_any_flag`. -/
def ParsedCommand.has_any_flag (c : ParsedCommand) (fs : List String) : Bool :=
  fs.any (fun f => c.has_flag f)

/-- Python `list.index` returning `none` instead of raising `ValueError`,
used to model the `try: idx = self.flags.index(flag) ... except ValueError`
block of `get_flag_value`. -/
def firstIdxOf (x : String) : List String → Option Nat
  | [] => none
  | y :: ys => if y = x then some 0 else (firstIdxOf x ys).map (· + 1)

/-- `ParsedCommand.get_flag_value` from `safe_cli/core/parser.py`:
first the `--flag=value` scan over the flag tokens, then the bare-flag
lookup that reads the flag's index *within the flags list* against the
args list. -/
def ParsedCommand.get_flag_value (c : ParsedCommand) (flag : String) : Option String :=
  match c.flags.find? (fun f => strStartsWith f (flag ++ "=")) with
  | some f => some (afterFirstEq f)
  | none =>
    match firstIdxOf flag c.flags with
    | some idx =>
      if idx + 1 < c.args.length then some (c.args.getD (idx + 1) "") else none
    | none => none

/-- `RuleMatch` from `safe_cli/rules/base.py` (the non-empty name/message
construction check is not needed by the claims below). -/
structure RuleMatch where
  rule_name : String
  danger_level : DangerLevel
  message : String
  suggestion : Option String := none
  safe_alternative : Option String := none

/-- The `Rule` contract from `safe_cli/rules/base.py`: a name plus the
two required operations `matches` and `analyze`. -/
structure Rule where
  name : String
  «matches» : ParsedCommand → Bool
  analyze : ParsedCommand → RuleMatch

/-- `RuleRegistry.find_matching_rules`: filter the registered rules by
`matches`, preserving registration order. -/
def find_matching_rules (rules : List Rule) (c : ParsedCommand) : List Rule :=
  rules.filter (fun r => r.«matches» c)

/-- `RuleRegistry.analyze_command`: run `analyze` over the matching
rules, in the same order. -/
def analyze_command (rules : List Rule) (c : ParsedCommand) : List RuleMatch :=
  (find_matching_rules rules c).map (fun r => r.analyze c)

/-- Argument handed to `RuleRegistry.register`: either an actual `Rule`
instance or a value of some other runtime type, for which the
`isinstance(rule, Rule)` check fails. -/
inductive RegisterArg
  | rule (r : Rule)
  | notARule

/-- The two failures `RuleRegistry.register` can raise: the `TypeError`
for a non-`Rule` argument and the `ValueError` for a duplicate name. -/
inductive RegisterError
  | typeError
  | duplicateName (name : String)
deriving DecidableEq

/-- `RuleRegistry.register` as a state transformer on the rule list:
returns the raised error (if any) together with the rule list after the
call. Both checks happen before the append, so on failure the list is
returned unchanged. -/
def RuleRegistry.register (rules : List Rule) (arg : RegisterArg) :
    Option RegisterError × List Rule :=
  match arg with
  | .notARule => (some .typeError, rules)
  | .rule r =>
    if rules.any (fun q => q.name == r.name) then
      (some (.duplicateName r.name), rules)
    else
      (none, rules ++ [r])

/-- `AnalysisResult` from `safe_cli/core/analyzer.py`. -/
structure AnalysisResult where
  command : ParsedCommand
  danger_level : DangerLevel
  «matches» : List RuleMatch
  primary_warning : String
  all_warnings : List String
  suggestions : List String
  safe_alternatives : List String

/-- `CommandAnalyzer._create_safe_result`. -/
def create_safe_result (c : ParsedCommand) : AnalysisResult :=
  { command := c
    danger_level := .SAFE
    «matches» := []
    primary_warning := "No safety concerns detected."
    all_warnings := []
    suggestions := []
    safe_alternatives := [] }

/-- One step of CPython's `max` loop on danger levels: replace the
running best only on a strictly greater value (`DangerLevel.__gt__`
compares ranks). -/
def maxLevelStep (a : DangerLevel) (x : RuleMatch) : DangerLevel :=
  if a.rank < x.danger_level.rank then x.danger_level else a

/-- `max(match.danger_level for match in matches)` on the non-empty list
`m :: rest`. -/
def max_danger (m : RuleMatch) (rest : List RuleMatch) : DangerLevel :=
  rest.foldl maxLevelStep m.danger_level

/-- One step of CPython's `max(matches, key=lambda m: m.danger_level)`
loop: replace the running best only when the new key is strictly
greater, so ties keep the earlier element. -/
def maxMatchStep (best x : RuleMatch) : RuleMatch :=
  if best.danger_level.rank < x.danger_level.rank then x else best

/-- `CommandAnalyzer._get_primary_warning` on the non-empty match list
`m :: rest`: the message of `max(matches, key=lambda m: m.danger_level)`. -/
def get_primary_warning (m : RuleMatch) (rest : List RuleMatch) : String :=
  (rest.foldl maxMatchStep m).message

/-- The seen-set de-duplication loop shared by
`CommandAnalyzer._aggregate_warnings` / `_aggregate_suggestions` /
`_aggregate_safe_alternatives`: walk the input, appending each element
to the accumulator unless it was already appended. -/
def dedup_seen : List String → List String → List String
  | [], acc => acc
  | w :: ws, acc => if w ∈ acc then dedup_seen ws acc else dedup_seen ws (acc ++ [w])

/-- `CommandAnalyzer._aggregate_warnings`. -/
def aggregate_warnings (ms : List RuleMatch) : List String :=
  dedup_seen (ms.map (fun m => m.message)) []

/-- `CommandAnalyzer._aggregate_suggestions` (keeps the non-`None`
suggestions, then de-duplicates). -/
def aggregate_suggestions (ms : List RuleMatch) : List String :=
  dedup_seen (ms.filterMap (fun m => m.suggestion)) []

/-- `CommandAnalyzer._aggregate_safe_alternatives`. -/
def aggregate_safe_alternatives (ms : List RuleMatch) : List String :=
  dedup_seen (ms.filterMap (fun m => m.safe_alternative)) []

/-- `CommandAnalyzer.analyze` over the rule list held by the registry. -/
def CommandAnalyzer.analyze (rules : List Rule) (c : ParsedCommand) : AnalysisResult :=
  match analyze_command rules c with
  | [] => create_safe_result c
  | m :: rest =>
    { command := c
      danger_level := max_danger m rest
      «matches» := m :: rest
      primary_warning := get_primary_warning m rest
      all_warnings := aggregate_warnings (m :: rest)
      suggestions := aggregate_suggestions (m :: rest)
      safe_alternatives := aggregate_safe_alternatives (m :: rest) }

/-- `RECURSIVE_FLAGS` from `safe_cli/utils/constants.py`. -/
def RECURSIVE_FLAGS : List String := ["-r", "-R", "--recursive"]

/-- `FORCE_FLAGS` from `safe_cli/utils/constants.py`. -/
def FORCE_FLAGS : List String := ["-f", "-F", "--force"]

/-- `INTERACTIVE_FLAGS` from `safe_cli/utils/constants.py`. -/
def INTERACTIVE_FLAGS : List String := ["-i", "-I", "--interactive"]

/-- `DANGEROUS_PATHS` from `safe_cli/utils/constants.py`. -/
def DANGEROUS_PATHS : List String :=
  ["/", "/bin", "/boot", "/dev", "/etc", "/lib", "/proc", "/root", "/sbin",
   "/sys", "/usr", "/var"]

/-- `_path_is_dangerous` from `safe_cli/rules/filesystem.py`: exact match
or sub-path of a dangerous path, with `/` special-cased to match only
`/` itself or a leading `/*` wildcard. -/
def path_is_dangerous (path : String) : Bool :=
  DANGEROUS_PATHS.any (fun dangerous =>
    if dangerous == "/" then
      path == "/" || strStartsWith path "/*"
    else
      path == dangerous || strStartsWith path (dangerous ++ "/"))

/-- `RmRule._calculate_danger` from `safe_cli/rules/filesystem.py`. -/
def rm_calculate_danger (c : ParsedCommand) : DangerLevel :=
  let has_recursive := c.has_any_flag RECURSIVE_FLAGS
  let has_force := c.has_any_flag FORCE_FLAGS
  let has_interactive := c.has_any_flag INTERACTIVE_FLAGS
  let targets := c.args
  let has_dangerous_path := targets.any path_is_dangerous
  let has_wildcard := targets.any (fun p => p.toList.contains '*')
  if has_recursive && has_force && has_dangerous_path then .CRITICAL
  else if has_recursive && has_force && has_wildcard then .CRITICAL
  else if has_recursive && has_force then .HIGH
  else if has_dangerous_path && !has_interactive then .HIGH
  else if has_recursive || has_force then .MEDIUM
  else .LOW

/-- `RmRule._get_message` from `safe_cli/rules/filesystem.py`. -/
def rm_get_message (c : ParsedCommand) : String :=
  let has_recursive := c.has_any_flag RECURSIVE_FLAGS
  let has_force := c.has_any_flag FORCE_FLAGS
  if has_recursive && has_force then
    "This will permanently delete files recursively without prompting. This operation cannot be undone!"
  else if has_recursive then
    "This will delete directories and all their contents recursively."
  else if has_force then
    "This will force delete files without prompting for confirmation."
  else if c.args.any path_is_dangerous then
    "This targets system-critical directories. Deletion could break your system!"
  else
    "This will permanently delete files."

/-- `RmRule._get_suggestion` from `safe_cli/rules/filesystem.py`. -/
def rm_get_suggestion (c : ParsedCommand) : Option String :=
  if !(c.has_any_flag INTERACTIVE_FLAGS) then
    some "Consider using -i or --interactive flag to confirm each deletion."
  else none

/-- Python `str.strip()` restricted to the ASCII whitespace characters it
removes from both ends. -/
def strStrip (s : String) : String :=
  let ws : List Char := [' ', '\t', '\n', '\r', '\x0b', '\x0c']
  ⟨((s.toList.dropWhile (fun c => ws.contains c)).reverse.dropWhile
      (fun c => ws.contains c)).reverse⟩

/-- `RmRule._get_safe_alternative` from `safe_cli/rules/filesystem.py`:
`f"rm -i {flags} {args}".strip()` when not already interactive. -/
def rm_get_safe_alternative (c : ParsedCommand) : Option String :=
  if !(c.has_any_flag INTERACTIVE_FLAGS) then
    some (strStrip ("rm -i " ++ String.intercalate " " c.flags ++ " "
      ++ String.intercalate " " c.args))
  else none

/-- The `RmRule` instance from `safe_cli/rules/filesystem.py` as a
concrete `Rule` value. -/
def rmRule : Rule :=
  { name := "rm_command"
    «matches» := fun c => c.command == "rm"
    analyze := fun c =>
      { rule_name := "rm_command"
        danger_level := rm_calculate_danger c
        message := rm_get_message c
        suggestion := rm_get_suggestion c
        safe_alternative := rm_get_safe_alternative c } }

/-- The danger-level component of `DockerSystemPruneRule.analyze` from
`safe_cli/rules/docker.py`: the base level from the `-a` or `--all` and
`--volumes` flags, then the force branch
`CRITICAL if base_level == DangerLevel.HIGH else HIGH`. -/
def docker_system_prune_danger (c : ParsedCommand) : DangerLevel :=
  let has_all := c.has_any_flag ["-a", "--all"]
  let has_volumes := c.flags.contains "--volumes"
  let has_force := c.has_any_flag ["-f", "--force"]
  let base_level :=
    if has_all && has_volumes then DangerLevel.CRITICAL
    else if has_all then DangerLevel.HIGH
    else if has_volumes then DangerLevel.HIGH
    else DangerLevel.MEDIUM
  if has_force then
    if base_level = DangerLevel.HIGH then DangerLevel.CRITICAL else DangerLevel.HIGH
  else base_level

/-- `GitBranchDeleteRule.matches` from `safe_cli/rules/git.py`: command
`git`, `branch` among the args, and `-D` among the flags or the string
`"--delete --force"` occurring inside `" ".join(flags)`. -/
def git_branch_delete_matches (c : ParsedCommand) : Bool :=
  c.command == "git" && c.args.contains "branch" &&
    (c.flags.contains "-D" ||
      containsSeq "--delete --force".toList (String.intercalate " " c.flags).toList)

/-- `GitBranchDeleteRule.analyze` from `safe_cli/rules/git.py`. -/
def git_branch_delete_analyze (c : ParsedCommand) : RuleMatch :=
  { rule_name := "git_branch_delete"
    danger_level := .HIGH
    message := "Force deleting a branch will remove it even if it contains unmerged changes. This could result in lost commits!"
    suggestion := some "Use 'git branch -d' (lowercase) to safely delete only merged branches."
    safe_alternative := some (strReplace c.raw "-D" "-d") }

/-- The dangerous wrapped commands checked by `SudoRule.analyze` in
`safe_cli/rules/system.py`. -/
def SUDO_DANGEROUS_COMMANDS : List String :=
  ["rm", "dd", "mkfs", "fdisk", "parted", "chmod", "chown"]

/-- The safe device sources excluded by `SudoRule.analyze`. -/
def SAFE_DEV_PATHS : List String :=
  ["/dev/zero", "/dev/null", "/dev/random", "/dev/urandom"]

/-- The `has_system_path` computation of `SudoRule.analyze`: some arg
contains a dangerous path as a substring and none of the safe device
sources as a substring. -/
def sudo_has_system_path (c : ParsedCommand) : Bool :=
  c.args.any (fun arg =>
    DANGEROUS_PATHS.any (fun p => containsSeq p.toList arg.toList) &&
      !(SAFE_DEV_PATHS.any (fun s => containsSeq s.toList arg.toList)))

/-- The danger-level component of `SudoRule.analyze` from
`safe_cli/rules/system.py`. -/
def sudo_danger (c : ParsedCommand) : DangerLevel :=
  let actual_cmd := c.args.headD ""
  let is_dangerous_cmd := SUDO_DANGEROUS_COMMANDS.contains actual_cmd
  if is_dangerous_cmd && sudo_has_system_path c then .CRITICAL
  else if is_dangerous_cmd then .HIGH
  else if sudo_has_system_path c then .HIGH
  else .MEDIUM

/-- Specification-side stable de-duplication: keep only the first
occurrence of each element, preserving order. -/
def dedupFirst : List String → List String
  | [] => []
  | x :: xs => x :: (dedupFirst xs).filter (fun y => y != x)

/-- Specification-side statement of the `rm` danger table as the claim
words it: CRITICAL on recursive∧force∧dangerous-path or
recursive∧force∧wildcard; else HIGH on recursive∧force or
dangerous-path∧¬interactive; else MEDIUM on exactly one of
recursive/force; else LOW. -/
def rmDangerSpec (c : ParsedCommand) : DangerLevel :=
  let hr := c.has_any_flag RECURSIVE_FLAGS
  let hf := c.has_any_flag FORCE_FLAGS
  let hi := c.has_any_flag INTERACTIVE_FLAGS
  let hd := c.args.any path_is_dangerous
  let hw := c.args.any (fun p => p.toList.contains '*')
  if (hr && hf && hd) || (hr && hf && hw) then .CRITICAL
  else if (hr && hf) || (hd && !hi) then .HIGH
  else if hr != hf then .MEDIUM
  else .LOW

/-- `echo hello` as the parser produces it. -/
def cmdEcho : ParsedCommand :=
  { raw := "echo hello", tokens := ["echo", "hello"], command := "echo",
    args := ["hello"], flags := [] }

/-- `rm x` as the parser produces it. -/
def cmdRmX : ParsedCommand :=
  { raw := "rm x", tokens := ["rm", "x"], command := "rm",
    args := ["x"], flags := [] }

/-- `rm -f x` as the parser produces it. -/
def cmdRmF : ParsedCommand :=
  { raw := "rm -f x", tokens := ["rm", "-f", "x"], command := "rm",
    args := ["x"], flags := ["-f"] }

/-- `rm -rf /tmp/x` as the parser produces it. -/
def cmdRmRfTmp : ParsedCommand :=
  { raw := "rm -rf /tmp/x", tokens := ["rm", "-rf", "/tmp/x"], command := "rm",
    args := ["/tmp/x"], flags := ["-rf"] }

/-- `rm -rf /` as the parser produces it. -/
def cmdRmRfRoot : ParsedCommand :=
  { raw := "rm -rf /", tokens := ["rm", "-rf", "/"], command := "rm",
    args := ["/"], flags := ["-rf"] }

/-- `docker system prune -a --volumes --force` as the parser produces it. -/
def cmdPruneAllVolForce : ParsedCommand :=
  { raw := "docker system prune -a --volumes --force",
    tokens := ["docker", "system", "prune", "-a", "--volumes", "--force"],
    command := "docker", args := ["system", "prune"],
    flags := ["-a", "--volumes", "--force"] }

/-- `docker system prune -a --volumes` as the parser produces it. -/
def cmdPruneAllVol : ParsedCommand :=
  { raw := "docker system prune -a --volumes",
    tokens := ["docker", "system", "prune", "-a", "--volumes"],
    command := "docker", args := ["system", "prune"],
    flags := ["-a", "--volumes"] }

/-- `git branch --delete --force topic` as the parser produces it. -/
def cmdGitBranchDF : ParsedCommand :=
  { raw := "git branch --delete --force topic",
    tokens := ["git", "branch", "--delete", "--force", "topic"],
    command := "git", args := ["branch", "topic"],
    flags := ["--delete", "--force"] }

/-- `sudo rm local/file` as the parser produces it. -/
def cmdSudoRmLocal : ParsedCommand :=
  { raw := "sudo rm local/file", tokens := ["sudo", "rm", "local/file"],
    command := "sudo", args := ["rm", "local/file"], flags := [] }

/-- `sudo cat a/b` as the parser produces it. -/
def cmdSudoCatAB : ParsedCommand :=
  { raw := "sudo cat a/b", tokens := ["sudo", "cat", "a/b"],
    command := "sudo", args := ["cat", "a/b"], flags := [] }


/-- The claim-side condition of C6: `flag` verbatim among the flag
tokens, or some flag token has `flag` as a prefix, or `flag` has the
form `-x` (single dash, exactly one non-dash character) and some flag
token is a single-dash cluster of more than one character containing
`x` after its dash. -/
def hasFlagSpec (c : ParsedCommand) (flag : String) : Prop :=
  flag ∈ c.flags
  ∨ (∃ f ∈ c.flags, strStartsWith f flag = true)
  ∨ (∃ x : Char, x ≠ '-' ∧ flag.toList = ['-', x]
      ∧ ∃ f ∈ c.flags, ∃ (y : Char) (rest : List Char),
          y ≠ '-' ∧ f.toList = '-' :: y :: rest ∧ x ∈ y :: rest)

/-- Ranks determine danger levels. -/
theorem DangerLevel.rank_inj : ∀ a b : DangerLevel, a.rank = b.rank → a = b := by
  intro a b h
  cases a <;> cases b <;> first
    | rfl
    | (exfalso; simp [DangerLevel.rank] at h)

/-- The accumulator's rank never decreases along the danger-level fold. -/
theorem maxLevelStep_foldl_le (l : List RuleMatch) :
    ∀ a : DangerLevel, a.rank ≤ (l.foldl maxLevelStep a).rank := by
  induction l with
  | nil => intro a; exact Nat.le_refl _
  | cons x xs ih =>
    intro a
    have h1 : a.rank ≤ (maxLevelStep a x).rank := by
      unfold maxLevelStep
      split
      · omega
      · exact Nat.le_refl _
    exact Nat.le_trans h1 (ih (maxLevelStep a x))

/-- Every element's danger rank is bounded by the danger-level fold. -/
theorem maxLevelStep_foldl_mem_le (l : List RuleMatch) :
    ∀ (a : DangerLevel) (x : RuleMatch), x ∈ l →
      x.danger_level.rank ≤ (l.foldl maxLevelStep a).rank := by
  induction l with
  | nil => intro a x hx; cases hx
  | cons y ys ih =>
    intro a x hx
    rw [List.foldl_cons]
    rcases List.mem_cons.mp hx with hxy | hxs
    · subst hxy
      have h1 : x.danger_level.rank ≤ (maxLevelStep a x).rank := by
        unfold maxLevelStep
        split
        · exact Nat.le_refl _
        · omega
      exact Nat.le_trans h1 (maxLevelStep_foldl_le ys (maxLevelStep a x))
    · exact ih (maxLevelStep a y) x hxs

/-- The danger-level fold returns its seed or some element's level. -/
theorem maxLevelStep_foldl_attained (l : List RuleMatch) :
    ∀ a : DangerLevel,
      l.foldl maxLevelStep a = a ∨
        ∃ x ∈ l, l.foldl maxLevelStep a = x.danger_level := by
  induction l with
  | nil => intro a; exact Or.inl rfl
  | cons y ys ih =>
    intro a
    rcases ih (maxLevelStep a y) with h | ⟨x, hx, hfx⟩
    · rw [List.foldl_cons, h]
      unfold maxLevelStep
      split
      · exact Or.inr ⟨y, List.mem_cons_self _ _, rfl⟩
      · exact Or.inl rfl
    · exact Or.inr ⟨x, List.mem_cons_of_mem _ hx, by rw [List.foldl_cons, hfx]⟩

/-- The accumulator's danger rank never decreases along the
primary-warning fold. -/
theorem maxMatchStep_foldl_le (l : List RuleMatch) :
    ∀ m : RuleMatch,
      m.danger_level.rank ≤ (l.foldl maxMatchStep m).danger_level.rank := by
  induction l with
  | nil => intro m; exact Nat.le_refl _
  | cons x xs ih =>
    intro m
    have h1 : m.danger_level.rank ≤ (maxMatchStep m x).danger_level.rank := by
      unfold maxMatchStep
      split
      · omega
      · exact Nat.le_refl _
    exact Nat.le_trans h1 (ih (maxMatchStep m x))

/-- The primary-warning fold computes the same danger level as the
danger-level fold. -/
theorem maxMatchStep_foldl_danger (l : List RuleMatch) :
    ∀ m : RuleMatch,
      (l.foldl maxMatchStep m).danger_level = l.foldl maxLevelStep m.danger_level := by
  induction l with
  | nil => intro m; rfl
  | cons x xs ih =>
    intro m
    rw [List.foldl_cons, List.foldl_cons, ih (maxMatchStep m x)]
    have : (maxMatchStep m x).danger_level = maxLevelStep m.danger_level x := by
      unfold maxMatchStep maxLevelStep
      split
      · rfl
      · rfl
    rw [this]

/-- The primary-warning fold returns the first element of the list
(seed included) whose danger level equals the fold's danger level: this
is CPython `max`'s first-maximal-element behaviour. -/
theorem maxMatchStep_foldl_first (l : List RuleMatch) :
    ∀ m : RuleMatch,
      (m :: l).find?
          (fun x => x.danger_level == (l.foldl maxMatchStep m).danger_level) =
        some (l.foldl maxMatchStep m) := by
  induction l with
  | nil =>
    intro m
    simp [List.find?]
  | cons y ys ih =>
    intro m
    rw [List.foldl_cons]
    by_cases hlt : m.danger_level.rank < y.danger_level.rank
    · have hstep : maxMatchStep m y = y := by unfold maxMatchStep; simp [hlt]
      have hne : m.danger_level ≠ (ys.foldl maxMatchStep (maxMatchStep m y)).danger_level := by
        intro heq
        have hge := maxMatchStep_foldl_le ys (maxMatchStep m y)
        rw [hstep] at hge
        rw [heq, hstep] at hlt
        omega
      have := ih (maxMatchStep m y)
      rw [hstep] at this ⊢
      rw [List.find?_cons]
      have hbeq : (m.danger_level == (ys.foldl maxMatchStep y).danger_level) = false := by
        rw [hstep] at hne
        simp [hne]
      rw [hbeq]
      exact this
    · have hstep : maxMatchStep m y = m := by unfold maxMatchStep; simp [hlt]
      rw [hstep]
      have ihm := ih m
      by_cases hm : m.danger_level = (ys.foldl maxMatchStep m).danger_level
      · rw [List.find?_cons]
        have hbeq : (m.danger_level == (ys.foldl maxMatchStep m).danger_level) = true := by
          simp [hm]
        rw [hbeq]
        rw [List.find?_cons, hbeq] at ihm
        exact ihm
      · have hy : y.danger_level ≠ (ys.foldl maxMatchStep m).danger_level := by
          intro heq
          have hle := maxMatchStep_foldl_le ys m
          rw [← heq] at hle
          have hmy : m.danger_level = y.danger_level :=
            DangerLevel.rank_inj _ _ (Nat.le_antisymm hle (Nat.le_of_not_lt hlt))
          exact hm (by rw [hmy, heq])
        rw [List.find?_cons]
        have hbeqm : (m.danger_level == (ys.foldl maxMatchStep m).danger_level) = false := by
          simp [hm]
        rw [hbeqm]
        rw [List.find?_cons, hbeqm] at ihm
        rw [List.find?_cons]
        have hbeqy : (y.danger_level == (ys.foldl maxMatchStep m).danger_level) = false := by
          simp [hy]
        rw [hbeqy]
        exact ihm

/-- `dedupFirst` produces duplicate-free lists. -/
theorem dedupFirst_nodup : ∀ l : List String, (dedupFirst l).Nodup := by
  intro l
  induction l with
  | nil => exact List.nodup_nil
  | cons x xs ih =>
    rw [dedupFirst]
    refine List.Nodup.cons ?_ (List.Nodup.filter _ ih)
    intro hx
    have := List.of_mem_filter hx
    simp at this

/-- The seen-set loop of the analyzer equals appending, to the
accumulator, the stably de-duplicated input restricted to elements not
already in the accumulator. -/
theorem dedup_seen_eq :
    ∀ (l acc : List String),
      dedup_seen l acc = acc ++ (dedupFirst l).filter (fun y => decide (y ∉ acc)) := by
  intro l
  induction l with
  | nil => intro acc; simp [dedup_seen, dedupFirst]
  | cons w ws ih =>
    intro acc
    rw [dedup_seen, dedupFirst]
    by_cases hw : w ∈ acc
    · rw [if_pos hw, ih acc, List.filter_cons]
      have hpw : (decide (w ∉ acc)) = false := by simp [hw]
      rw [hpw]
      simp only [Bool.false_eq_true, if_false]
      congr 1
      rw [List.filter_filter]
      refine List.filter_congr ?_
      intro y _
      by_cases h2 : y = w
      · subst h2; simp [hw]
      · simp [h2]
    · rw [if_neg hw, ih (acc ++ [w]), List.filter_cons]
      have hpw : (decide (w ∉ acc)) = true := by simp [hw]
      rw [hpw]
      simp only [if_true]
      rw [List.append_assoc, List.singleton_append]
      congr 1
      congr 1
      rw [List.filter_filter]
      refine List.filter_congr ?_
      intro y _
      by_cases h1 : y ∈ acc <;> by_cases h2 : y = w <;>
        simp [h1, h2]

/-- Starting from an empty seen set, the analyzer's loop is exactly the
stable de-duplication. -/
theorem dedup_seen_nil (l : List String) : dedup_seen l [] = dedupFirst l := by
  rw [dedup_seen_eq]
  simp

/-- C1: if no registered rule matches a parsed command,
`CommandAnalyzer.analyze` returns the fixed SAFE result (danger SAFE,
empty match/warning/suggestion/alternative lists, the fixed primary
warning); if at least one rule matches, the result's danger level is the
maximum of the danger levels of the produced rule matches (an upper
bound on all of them that is attained by one of them). -/
theorem claim_C1 (rules : List Rule) (c : ParsedCommand) :
    ((∀ r ∈ rules, r.«matches» c = false) →
      CommandAnalyzer.analyze rules c =
        { command := c, danger_level := .SAFE, «matches» := [],
          primary_warning := "No safety concerns detected.",
          all_warnings := [], suggestions := [], safe_alternatives := [] }) ∧
    ((∃ r ∈ rules, r.«matches» c = true) →
      (∀ m ∈ analyze_command rules c,
        m.danger_level.rank ≤ (CommandAnalyzer.analyze rules c).danger_level.rank) ∧
      (∃ m ∈ analyze_command rules c,
        (CommandAnalyzer.analyze rules c).danger_level = m.danger_level)) := by
  constructor
  · intro h
    have hfil : find_matching_rules rules c = [] := by
      rw [find_matching_rules, List.filter_eq_nil_iff]
      intro r hr
      rw [h r hr]
      simp
    have hac : analyze_command rules c = [] := by
      rw [analyze_command, hfil, List.map_nil]
    simp only [CommandAnalyzer.analyze, hac]
    rfl
  · rintro ⟨r, hr, hmatch⟩
    have hmem : r.analyze c ∈ analyze_command rules c := by
      rw [analyze_command]
      exact List.mem_map_of_mem _ (List.mem_filter.mpr ⟨hr, hmatch⟩)
    cases hac : analyze_command rules c with
    | nil => rw [hac] at hmem; cases hmem
    | cons m rest =>
      simp only [CommandAnalyzer.analyze, hac]
      constructor
      · intro x hx
        rw [max_danger]
        rcases List.mem_cons.mp hx with hxm | hxr
        · subst hxm
          exact maxLevelStep_foldl_le rest x.danger_level
        · exact maxLevelStep_foldl_mem_le rest m.danger_level x hxr
      · rw [max_danger]
        rcases maxLevelStep_foldl_attained rest m.danger_level with hs | ⟨x, hx, hfx⟩
        · exact ⟨m, List.mem_cons_self _ _, hs⟩
        · exact ⟨x, List.mem_cons_of_mem _ hx, hfx⟩

/-- Witness for C1: with the registry `[rmRule]`, `echo hello` matches
no rule and produces the fixed SAFE result, while `rm -f x` matches
`rmRule` and the result's danger level is the maximum over the produced
matches. -/
theorem claim_C1_witness :
    (CommandAnalyzer.analyze [rmRule] cmdEcho =
      { command := cmdEcho, danger_level := .SAFE, «matches» := [],
        primary_warning := "No safety concerns detected.",
        all_warnings := [], suggestions := [], safe_alternatives := [] }) ∧
    ((∀ m ∈ analyze_command [rmRule] cmdRmF,
        m.danger_level.rank ≤ (CommandAnalyzer.analyze [rmRule] cmdRmF).danger_level.rank) ∧
      (∃ m ∈ analyze_command [rmRule] cmdRmF,
        (CommandAnalyzer.analyze [rmRule] cmdRmF).danger_level = m.danger_level)) :=
  ⟨(claim_C1 [rmRule] cmdEcho).1
      (by intro r hr; rw [List.mem_singleton] at hr; subst hr; decide),
    (claim_C1 [rmRule] cmdRmF).2
      ⟨rmRule, List.mem_singleton.mpr rfl, by decide⟩⟩

/-- C2: whenever at least one rule matches, the result's primary warning
is the message of the first produced match (in registration order)
whose danger level equals the maximum danger level: there is a match
`mx` attaining the maximum whose danger level all matches' levels are
bounded by, `mx` is the first match with that level (ties among maximal
matches go to the earliest-registered rule), and the primary warning is
its message. -/
theorem claim_C2 (rules : List Rule) (c : ParsedCommand)
    (h : ∃ r ∈ rules, r.«matches» c = true) :
    ∃ mx ∈ analyze_command rules c,
      (∀ x ∈ analyze_command rules c,
        x.danger_level.rank ≤ mx.danger_level.rank) ∧
      (analyze_command rules c).find?
          (fun x => x.danger_level == mx.danger_level) = some mx ∧
      (CommandAnalyzer.analyze rules c).primary_warning = mx.message := by
  obtain ⟨r, hr, hmatch⟩ := h
  have hmem : r.analyze c ∈ analyze_command rules c := by
    rw [analyze_command]
    exact List.mem_map_of_mem _ (List.mem_filter.mpr ⟨hr, hmatch⟩)
  cases hac : analyze_command rules c with
  | nil => rw [hac] at hmem; cases hmem
  | cons m rest =>
    simp only [CommandAnalyzer.analyze, hac]
    refine ⟨rest.foldl maxMatchStep m,
      List.mem_of_find?_eq_some (maxMatchStep_foldl_first rest m), ?_, ?_, ?_⟩
    · intro x hx
      rw [maxMatchStep_foldl_danger rest m]
      rcases List.mem_cons.mp hx with hxm | hxr
      · subst hxm
        exact maxLevelStep_foldl_le rest x.danger_level
      · exact maxLevelStep_foldl_mem_le rest m.danger_level x hxr
    · exact maxMatchStep_foldl_first rest m
    · rw [get_primary_warning]

/-- Witness for C2: with the registry `[rmRule]`, `rm -f x` matches and
the primary warning is the message of the first maximal match. -/
theorem claim_C2_witness :
    ∃ mx ∈ analyze_command [rmRule] cmdRmF,
      (∀ x ∈ analyze_command [rmRule] cmdRmF,
        x.danger_level.rank ≤ mx.danger_level.rank) ∧
      (analyze_command [rmRule] cmdRmF).find?
          (fun x => x.danger_level == mx.danger_level) = some mx ∧
      (CommandAnalyzer.analyze [rmRule] cmdRmF).primary_warning = mx.message :=
  claim_C2 [rmRule] cmdRmF ⟨rmRule, List.mem_singleton.mpr rfl, by decide⟩

/-- C3: the aggregated warning/suggestion/alternative lists of every
analysis result are duplicate-free; the warnings are the stably
de-duplicated (first occurrence kept, order preserved) match messages,
and the suggestions and safe alternatives are likewise the stably
de-duplicated non-null suggestion and safe-alternative fields across
the matches. -/
theorem claim_C3 (rules : List Rule) (c : ParsedCommand) :
    (CommandAnalyzer.analyze rules c).all_warnings.Nodup ∧
    (CommandAnalyzer.analyze rules c).suggestions.Nodup ∧
    (CommandAnalyzer.analyze rules c).safe_alternatives.Nodup ∧
    (CommandAnalyzer.analyze rules c).all_warnings =
      dedupFirst ((analyze_command rules c).map (fun m => m.message)) ∧
    (CommandAnalyzer.analyze rules c).suggestions =
      dedupFirst ((analyze_command rules c).filterMap (fun m => m.suggestion)) ∧
    (CommandAnalyzer.analyze rules c).safe_alternatives =
      dedupFirst ((analyze_command rules c).filterMap (fun m => m.safe_alternative)) := by
  cases hac : analyze_command rules c with
  | nil =>
    simp only [CommandAnalyzer.analyze, hac, create_safe_result]
    refine ⟨List.nodup_nil, List.nodup_nil, List.nodup_nil, ?_, ?_, ?_⟩ <;> rfl
  | cons m rest =>
    have hw : aggregate_warnings (m :: rest) =
        dedupFirst ((m :: rest).map (fun x => x.message)) := by
      rw [aggregate_warnings, dedup_seen_nil]
    have hs : aggregate_suggestions (m :: rest) =
        dedupFirst ((m :: rest).filterMap (fun x => x.suggestion)) := by
      rw [aggregate_suggestions, dedup_seen_nil]
    have ha : aggregate_safe_alternatives (m :: rest) =
        dedupFirst ((m :: rest).filterMap (fun x => x.safe_alternative)) := by
      rw [aggregate_safe_alternatives, dedup_seen_nil]
    simp only [CommandAnalyzer.analyze, hac]
    exact ⟨hw ▸ dedupFirst_nodup _, hs ▸ dedupFirst_nodup _, ha ▸ dedupFirst_nodup _,
      hw, hs, ha⟩

/-- C4: for `rm` commands, the computed danger level equals the claim's
decision table (CRITICAL on recursive∧force∧dangerous-path or
recursive∧force∧wildcard; else HIGH on recursive∧force or
dangerous-path without interactive; else MEDIUM on exactly one of
recursive/force; else LOW). -/
theorem claim_C4 (c : ParsedCommand) (_h : c.command = "rm") :
    rm_calculate_danger c = rmDangerSpec c := by
  simp only [rm_calculate_danger, rmDangerSpec]
  generalize c.has_any_flag RECURSIVE_FLAGS = hr
  generalize c.has_any_flag FORCE_FLAGS = hf
  generalize c.has_any_flag INTERACTIVE_FLAGS = hi
  generalize c.args.any path_is_dangerous = hd
  generalize c.args.any (fun p => p.toList.contains '*') = hw
  cases hr <;> cases hf <;> cases hi <;> cases hd <;> cases hw <;> rfl

/-- Witness for C4: the table at the claim's four example commands
(`rm x` LOW, `rm -f x` MEDIUM, `rm -rf /tmp/x` HIGH, `rm -rf /`
CRITICAL), with the theorem applied at `rm -rf /`. -/
theorem claim_C4_witness :
    cmdRmRfRoot.command = "rm" ∧
    rm_calculate_danger cmdRmX = .LOW ∧
    rm_calculate_danger cmdRmF = .MEDIUM ∧
    rm_calculate_danger cmdRmRfTmp = .HIGH ∧
    rm_calculate_danger cmdRmRfRoot = .CRITICAL ∧
    rm_calculate_danger cmdRmRfRoot = rmDangerSpec cmdRmRfRoot :=
  ⟨rfl, by decide, by decide, by decide, by decide, claim_C4 cmdRmRfRoot rfl⟩

/-- C5: evaluation of the docker-system-prune danger computation on the
claim's inputs. With `-a --volumes` the base level is CRITICAL; adding
`--force` the code takes the branch
`CRITICAL if base_level == HIGH else HIGH` and returns HIGH, demoting
the CRITICAL base instead of keeping it CRITICAL as the claim (and the
code's own comment that force "makes everything more dangerous")
require. MEDIUM and HIGH bases do escalate as claimed. -/
theorem claim_C5_eval :
    docker_system_prune_danger cmdPruneAllVol = .CRITICAL ∧
    docker_system_prune_danger cmdPruneAllVolForce = .HIGH ∧
    (DangerLevel.HIGH.rank < DangerLevel.CRITICAL.rank) := by
  refine ⟨by decide, by decide, by decide⟩

/-- C6: `has_flag` returns true exactly under the claim's condition. -/
theorem claim_C6 (c : ParsedCommand) (flag : String) :
    c.has_flag flag = true ↔ hasFlagSpec c flag := by
  rw [ParsedCommand.has_flag, hasFlagSpec]
  by_cases h1 : (c.flags.contains flag || c.flags.any fun f => strStartsWith f flag) = true
  · rw [if_pos h1]
    have h1' := h1
    rw [Bool.or_eq_true] at h1'
    constructor
    · intro _
      rcases h1' with hcont | hany
      · exact Or.inl (List.elem_iff.mp hcont)
      · obtain ⟨f, hf, hsw⟩ := List.any_eq_true.mp hany
        exact Or.inr (Or.inl ⟨f, hf, hsw⟩)
    · intro _
      rfl
  · rw [if_neg h1]
    rw [Bool.or_eq_true, not_or] at h1
    obtain ⟨hnc, hna⟩ := h1
    have hmem : flag ∉ c.flags := fun hm => hnc (List.elem_iff.mpr hm)
    have hnsw : ¬ ∃ f ∈ c.flags, strStartsWith f flag = true := by
      rintro ⟨f, hf, hs⟩
      exact hna (List.any_eq_true.mpr ⟨f, hf, hs⟩)
    rw [or_iff_right hmem, or_iff_right hnsw]
    rcases hfl : flag.toList with _ | ⟨a, _ | ⟨b, _ | ⟨e, t⟩⟩⟩
    · simp [hfl]
    · simp [hfl]
    · simp only [hfl]
      by_cases h2 : (a == '-' && b != '-') = true
      · rw [if_pos h2]
        rw [Bool.and_eq_true, beq_iff_eq, bne_iff_ne] at h2
        obtain ⟨ha, hb⟩ := h2
        subst ha
        constructor
        · intro hany
          obtain ⟨f, hf, hff⟩ := List.any_eq_true.mp hany
          rcases hft : f.toList with _ | ⟨d2, _ | ⟨y, rest⟩⟩ <;> rw [hft] at hff
          · simp at hff
          · simp at hff
          · simp only [Bool.and_eq_true, beq_iff_eq, bne_iff_ne] at hff
            obtain ⟨⟨hd2, hy⟩, hcont⟩ := hff
            subst hd2
            exact ⟨b, hb, rfl, f, hf, y, rest, hy, hft, List.elem_iff.mp hcont⟩
        · rintro ⟨x, hx, hfx, f, hf, y, rest, hy, hft, hxm⟩
          obtain ⟨-, h''⟩ := List.cons_eq_cons.mp hfx
          obtain ⟨hbx, -⟩ := List.cons_eq_cons.mp h''
          subst hbx
          refine List.any_eq_true.mpr ⟨f, hf, ?_⟩
          rw [hft]
          simp only [Bool.and_eq_true, beq_iff_eq, bne_iff_ne]
          exact ⟨⟨by trivial, hy⟩, List.elem_iff.mpr hxm⟩
      · rw [if_neg h2]
        constructor
        · intro hff
          simp at hff
        · rintro ⟨x, hx, hfx, _⟩
          obtain ⟨h3, h4⟩ := List.cons_eq_cons.mp hfx
          obtain ⟨h5, -⟩ := List.cons_eq_cons.mp h4
          subst h3
          subst h5
          exact absurd (by simp [hx]) h2
    · simp [hfl]

/-- The modelled `list.index` agrees with membership plus
`List.indexOf`. -/
theorem firstIdxOf_eq (flag : String) :
    ∀ l : List String,
      firstIdxOf flag l = if flag ∈ l then some (List.indexOf flag l) else none := by
  intro l
  induction l with
  | nil => simp [firstIdxOf]
  | cons y ys ih =>
    rw [firstIdxOf]
    by_cases hy : y = flag
    · subst hy
      rw [if_pos rfl, if_pos (List.mem_cons_self _ _), List.indexOf_cons_self]
    · rw [if_neg hy, ih]
      by_cases hm : flag ∈ ys
      · rw [if_pos hm, if_pos (List.mem_cons_of_mem _ hm)]
        simp [List.indexOf_cons_ne _ hy, Nat.succ_eq_add_one]
      · rw [if_neg hm, if_neg ?_]
        · rfl
        · intro hc
          rcases List.mem_cons.mp hc with h | h
          · exact hy h.symm
          · exact hm h

/-- C7: `get_flag_value` returns the text after `=` of the first flag
token starting with `flag=` when one exists; otherwise, when `flag`
occurs verbatim in the flags list at (first) index `i`, it returns
`args[i + 1]` when that index is in range of the args list and `None`
otherwise; and `None` when `flag` is absent — the bare-flag lookup
correlates the index within the flags list against the args list. -/
theorem claim_C7 (c : ParsedCommand) (flag : String) :
    c.get_flag_value flag =
      match c.flags.find? (fun f => strStartsWith f (flag ++ "=")) with
      | some f => some (afterFirstEq f)
      | none =>
        if flag ∈ c.flags then c.args[List.indexOf flag c.flags + 1]? else none := by
  rw [ParsedCommand.get_flag_value]
  cases hfind : c.flags.find? (fun f => strStartsWith f (flag ++ "=")) with
  | some f => rfl
  | none =>
    by_cases hm : flag ∈ c.flags
    · have hidx : firstIdxOf flag c.flags = some (List.indexOf flag c.flags) := by
        rw [firstIdxOf_eq, if_pos hm]
      simp only [hidx, if_pos hm]
      by_cases hlen : List.indexOf flag c.flags + 1 < c.args.length
      · rw [if_pos hlen, List.getD_eq_getElem?_getD, List.getElem?_eq_getElem hlen]
        rfl
      · rw [if_neg hlen, List.getElem?_eq_none (Nat.le_of_not_lt hlen)]
    · have hidx : firstIdxOf flag c.flags = none := by
        rw [firstIdxOf_eq, if_neg hm]
      simp only [hidx, if_neg hm]

/-- Counterexample to C8 as stated: `git branch --delete --force topic`
is matched by the git branch force-delete rule even though `-D` is not
among its flags, so `-D` is not the only flag combination that makes
the rule match. -/
theorem claim_C8_counterexample :
    git_branch_delete_matches cmdGitBranchDF = true ∧
      "-D" ∉ cmdGitBranchDF.flags := by
  refine ⟨by decide, by decide⟩

/-- C8 amended: the rule matches iff the command is `git`, `branch` is
among the positional args, and either `-D` is among the flags or the
string `"--delete --force"` occurs as a substring of the space-joined
flags; whenever it matches, the danger level is HIGH and the safe
alternative is the raw command with every `-D` replaced by `-d`. -/
theorem claim_C8_amended (c : ParsedCommand) :
    (git_branch_delete_matches c = true ↔
      (c.command = "git" ∧ "branch" ∈ c.args ∧
        ("-D" ∈ c.flags ∨
          containsSeq "--delete --force".toList
            (String.intercalate " " c.flags).toList = true))) ∧
    (git_branch_delete_analyze c).danger_level = .HIGH ∧
    (git_branch_delete_analyze c).safe_alternative =
      some (strReplace c.raw "-D" "-d") := by
  refine ⟨?_, rfl, rfl⟩
  rw [git_branch_delete_matches]
  simp only [Bool.and_eq_true, Bool.or_eq_true, beq_iff_eq]
  constructor
  · rintro ⟨⟨h1, h2⟩, h3⟩
    exact ⟨h1, List.elem_iff.mp h2, h3.imp List.elem_iff.mp id⟩
  · rintro ⟨h1, h2, h3⟩
    exact ⟨⟨h1, List.elem_iff.mpr h2⟩, h3.imp List.elem_iff.mpr id⟩

/-- C9: `register` fails with a `TypeError` on a non-`Rule` argument and
with a duplicate-name error when some registered rule already has the
argument's name, leaving the rule list unchanged in both failure cases;
on success it appends the rule at the end, preserving registration
order. -/
theorem claim_C9 (rules : List Rule) (arg : RegisterArg) :
    (arg = .notARule →
      (RuleRegistry.register rules arg).1 = some .typeError ∧
      (RuleRegistry.register rules arg).2 = rules) ∧
    (∀ r : Rule, arg = .rule r →
      ((∃ q ∈ rules, q.name = r.name) →
        (RuleRegistry.register rules arg).1 = some (.duplicateName r.name) ∧
        (RuleRegistry.register rules arg).2 = rules) ∧
      ((∀ q ∈ rules, q.name ≠ r.name) →
        RuleRegistry.register rules arg = (none, rules ++ [r]))) := by
  cases arg with
  | notARule =>
    refine ⟨fun _ => ⟨rfl, rfl⟩, ?_⟩
    intro r h
    cases h
  | rule r0 =>
    constructor
    · intro h
      cases h
    · intro r h
      injection h with h0
      subst h0
      constructor
      · rintro ⟨q, hq, hname⟩
        have hany : (rules.any fun q => q.name == r0.name) = true :=
          List.any_eq_true.mpr ⟨q, hq, beq_iff_eq.mpr hname⟩
        simp only [RuleRegistry.register, hany, if_true]
        exact ⟨by trivial, by trivial⟩
      · intro hall
        have hany : (rules.any fun q => q.name == r0.name) = false := by
          rw [List.any_eq_false]
          intro q hq
          simp [hall q hq]
        simp only [RuleRegistry.register, hany, Bool.false_eq_true, if_false]

/-- Witness for C9: a `TypeError` on the empty registry leaves it empty;
re-registering `rmRule` on `[rmRule]` fails by duplicate name and leaves
the list unchanged; registering `rmRule` on the empty registry succeeds
and appends it. -/
theorem claim_C9_witness :
    ((RuleRegistry.register [] RegisterArg.notARule).1 = some .typeError ∧
      (RuleRegistry.register [] RegisterArg.notARule).2 = []) ∧
    ((RuleRegistry.register [rmRule] (RegisterArg.rule rmRule)).1 =
        some (.duplicateName rmRule.name) ∧
      (RuleRegistry.register [rmRule] (RegisterArg.rule rmRule)).2 = [rmRule]) ∧
    RuleRegistry.register [] (RegisterArg.rule rmRule) = (none, [rmRule]) := by
  refine ⟨(claim_C9 [] .notARule).1 rfl, ?_, ?_⟩
  · exact ((claim_C9 [rmRule] (.rule rmRule)).2 rmRule rfl).1
      ⟨rmRule, List.mem_singleton.mpr rfl, rfl⟩
  · exact ((claim_C9 [] (.rule rmRule)).2 rmRule rfl).2
      (fun q hq => absurd hq (List.not_mem_nil q))

/-- A one-character pattern occurs as a substring exactly when the
character occurs in the list. -/
theorem containsSeq_singleton (a : Char) :
    ∀ l : List Char, containsSeq [a] l = l.contains a := by
  intro l
  induction l with
  | nil => rfl
  | cons b bs ih =>
    rw [containsSeq, ih, List.contains_cons]
    simp only [isPrefixSeq, Bool.and_true]

/-- C10: the sudo rule's system-path factor is substring containment of
the dangerous paths — which include `"/"` — within each argument, so
every argument containing a `'/'` and none of the safe device sources
counts as touching a system path; consequently `sudo rm local/file` is
CRITICAL and `sudo cat a/b` at least HIGH. -/
theorem claim_C10 :
    ("/" ∈ DANGEROUS_PATHS) ∧
    (∀ (c : ParsedCommand) (arg : String), arg ∈ c.args →
      arg.toList.contains '/' = true →
      (∀ s ∈ SAFE_DEV_PATHS, containsSeq s.toList arg.toList = false) →
      sudo_has_system_path c = true) ∧
    sudo_danger cmdSudoRmLocal = .CRITICAL ∧
    DangerLevel.HIGH.rank ≤ (sudo_danger cmdSudoCatAB).rank := by
  refine ⟨by decide, ?_, by decide, by decide⟩
  intro c arg harg hslash hsafe
  rw [sudo_has_system_path]
  refine List.any_eq_true.mpr ⟨arg, harg, ?_⟩
  rw [Bool.and_eq_true]
  constructor
  · refine List.any_eq_true.mpr ⟨"/", by decide, ?_⟩
    show containsSeq "/".toList arg.toList = true
    have : "/".toList = ['/'] := rfl
    rw [this, containsSeq_singleton, hslash]
  · rw [Bool.not_eq_true']
    rw [List.any_eq_false]
    intro s hs
    have h := hsafe s hs
    simp only [String.toList] at h
    simp [h]

/-- Witness for C10: the quantified part applied to `sudo cat a/b` and
its argument `a/b`, together with the evaluated classification. -/
theorem claim_C10_witness :
    sudo_has_system_path cmdSudoCatAB = true :=
  claim_C10.2.1 cmdSudoCatAB "a/b" (by decide) (by decide) (by decide)
